import Mathlib

/-!
Shallow embedding of the coordinate mapper of the claude-tldraw repository.

The mapper lives in two scripts:
* the forward script (synctex-lookup.mjs, bundled in highlight-line.sh):
  `getPageDimensions`, `findPageForY`, `tldrawToPdfCoords`, `synctexLookup`,
  `parseSynctexOutput`;
* the reverse script (synctex-reverse.mjs, bundled in Canvas.tsx):
  its own copy of `getPageDimensions` and `pdfToTldrawCoords`.

Numbers are modelled as exact rationals (JS doubles become ℚ); errors thrown
by the JS code (missing page, undefined last page of an empty list) become
`none` of an `Option` result.  The per-page SVG file content is abstracted to
the result of the three regex extractions the source performs on it
(`viewBox=…`, `width=…`, `height=…`): a parse that produced NaN is `none`.
-/

/-- Result of the three regex extractions `getPageDimensions` performs on one
page file's content: the `viewBox` attribute (split on whitespace, each part
run through `parseFloat`, `none` = NaN), and the `width=`/`height=` attribute
values when their regexes match. -/
structure SvgAttrs where
  viewBox : Option (List (Option ℚ))
  width : Option ℚ
  height : Option ℚ
  deriving DecidableEq, Repr

/-- JS `v || d` applied to a `parseFloat` result `v`: NaN (`none`) and `0`
are falsy, anything else is kept. -/
def jsOr (v : Option ℚ) (d : ℚ) : ℚ :=
  match v with
  | none => d
  | some x => if x = 0 then d else x

/-- The four geometry numbers `getPageDimensions` extracts for one page. -/
structure ParsedGeom where
  viewBoxMinX : ℚ
  viewBoxMinY : ℚ
  origWidth : ℚ
  origHeight : ℚ
  deriving DecidableEq, Repr

/-- Geometry extraction for one page, as both scripts perform it: defaults
`(0, 0, 600, 800)`, overridden by a 4-part `viewBox` (each part through
`parseFloat(...) || default`), then `width=`/`height=` attributes override
the sizes unconditionally. -/
def resolveGeom (a : SvgAttrs) : ParsedGeom :=
  let vbMinX : ℚ := 0
  let vbMinY : ℚ := 0
  let ow : ℚ := 600
  let oh : ℚ := 800
  let r : ℚ × ℚ × ℚ × ℚ :=
    match a.viewBox with
    | some parts =>
        if parts.length = 4 then
          (jsOr (parts.getD 0 none) vbMinX, jsOr (parts.getD 1 none) vbMinY,
           jsOr (parts.getD 2 none) ow, jsOr (parts.getD 3 none) oh)
        else (vbMinX, vbMinY, ow, oh)
    | none => (vbMinX, vbMinY, ow, oh)
  let ow1 : ℚ := match a.width with | some w => w | none => r.2.2.1
  let oh1 : ℚ := match a.height with | some h => h | none => r.2.2.2
  ⟨r.1, r.2.1, ow1, oh1⟩

/-- `TARGET_WIDTH = 800` in both scripts. -/
def TARGET_WIDTH : ℚ := 800

/-- `PAGE_SPACING = 32` in both scripts. -/
def PAGE_SPACING : ℚ := 32

/-- One record pushed by the forward script's `getPageDimensions`
(synctex-lookup.mjs). -/
structure PageGeometry where
  pageNum : Nat
  origWidth : ℚ
  origHeight : ℚ
  viewBoxMinX : ℚ
  viewBoxMinY : ℚ
  scaledWidth : ℚ
  scaledHeight : ℚ
  scale : ℚ
  top : ℚ
  bottom : ℚ
  deriving DecidableEq, Repr

/-- One record pushed by the reverse script's `getPageDimensions`
(synctex-reverse.mjs); it stores no scaled width/height fields. -/
structure PageGeometryRev where
  pageNum : Nat
  origWidth : ℚ
  origHeight : ℚ
  viewBoxMinX : ℚ
  viewBoxMinY : ℚ
  scale : ℚ
  top : ℚ
  bottom : ℚ
  deriving DecidableEq, Repr

/-- The record the forward script builds for page `pageNum` laid out at
vertical position `top`. -/
def mkPage (pageNum : Nat) (top : ℚ) (a : SvgAttrs) : PageGeometry :=
  let g := resolveGeom a
  let scale := TARGET_WIDTH / g.origWidth
  let scaledWidth := g.origWidth * scale
  let scaledHeight := g.origHeight * scale
  ⟨pageNum, g.origWidth, g.origHeight, g.viewBoxMinX, g.viewBoxMinY,
   scaledWidth, scaledHeight, scale, top, top + scaledHeight⟩

/-- The record the reverse script builds for page `pageNum` laid out at
vertical position `top`. -/
def mkPageRev (pageNum : Nat) (top : ℚ) (a : SvgAttrs) : PageGeometryRev :=
  let g := resolveGeom a
  let scale := TARGET_WIDTH / g.origWidth
  let scaledHeight := g.origHeight * scale
  ⟨pageNum, g.origWidth, g.origHeight, g.viewBoxMinX, g.viewBoxMinY,
   scale, top, top + scaledHeight⟩

/-- Loop body of the forward script's `getPageDimensions`: page numbers count
up from `pageNum`, the running vertical position `top` advances by
`scaledHeight + PAGE_SPACING` after each page. -/
def getPageDimensionsAux : List SvgAttrs → Nat → ℚ → List PageGeometry
  | [], _, _ => []
  | a :: rest, pageNum, top =>
    let p := mkPage pageNum top a
    p :: getPageDimensionsAux rest (pageNum + 1) (top + p.scaledHeight + PAGE_SPACING)

/-- Forward script's `getPageDimensions`: the consecutive page files found
(until the first missing one) are abstracted as the input list; numbering
starts at 1, the first page at vertical position 0. -/
def getPageDimensions (contents : List SvgAttrs) : List PageGeometry :=
  getPageDimensionsAux contents 1 0

/-- Loop body of the reverse script's `getPageDimensions`. -/
def getPageDimensionsRevAux : List SvgAttrs → Nat → ℚ → List PageGeometryRev
  | [], _, _ => []
  | a :: rest, pageNum, top =>
    let p := mkPageRev pageNum top a
    p :: getPageDimensionsRevAux rest (pageNum + 1) (top + (p.bottom - p.top) + PAGE_SPACING)

/-- Reverse script's `getPageDimensions` (its own duplicated copy). -/
def getPageDimensionsRev (contents : List SvgAttrs) : List PageGeometryRev :=
  getPageDimensionsRevAux contents 1 0

/-- The test `y >= page.top && y < page.bottom` of `findPageForY`. -/
def inBand (y : ℚ) (p : PageGeometry) : Bool :=
  decide (p.top ≤ y) && decide (y < p.bottom)

/-- `findPageForY` of the forward script: forward scan for the first page
whose `[top, bottom)` band contains `y`, defaulting to the last page; on an
empty list the JS code returns `undefined` (the caller then throws), modelled
as `none`. -/
def findPageForY (pages : List PageGeometry) (y : ℚ) : Option PageGeometry :=
  match pages.find? (inBand y) with
  | some p => some p
  | none => pages.getLast?

/-- The object returned by the forward script's `tldrawToPdfCoords`. -/
structure PdfCoords where
  page : Nat
  pdfX : ℚ
  pdfY : ℚ
  localX : ℚ
  localY : ℚ
  origWidth : ℚ
  origHeight : ℚ
  deriving DecidableEq, Repr

/-- `tldrawToPdfCoords` of the forward script: find the page for `tlY`,
unscale and add the viewBox offset. -/
def tldrawToPdfCoords (pages : List PageGeometry) (tlX tlY : ℚ) : Option PdfCoords :=
  match findPageForY pages tlY with
  | none => none
  | some page =>
    let localX := tlX
    let localY := tlY - page.top
    let pdfX := localX / page.scale + page.viewBoxMinX
    let pdfY := localY / page.scale + page.viewBoxMinY
    some ⟨page.pageNum, pdfX, pdfY, localX, localY, page.origWidth, page.origHeight⟩

/-- The object returned by the reverse script's `pdfToTldrawCoords`. -/
structure TldrawCoords where
  tldrawX : ℚ
  tldrawY : ℚ
  page : Nat
  deriving DecidableEq, Repr

/-- `pdfToTldrawCoords` of the reverse script: index `pages[pageNum - 1]`
(out of range, including `pageNum = 0`, throws `Page ... not found`, modelled
as `none`), then scale and shift into canvas coordinates. -/
def pdfToTldrawCoords (pages : List PageGeometryRev) (pageNum : Nat) (pdfX pdfY : ℚ) :
    Option TldrawCoords :=
  if pageNum = 0 then none
  else
    match pages[pageNum - 1]? with
    | none => none
    | some page =>
      let localX := (pdfX - page.viewBoxMinX) * page.scale
      let localY := (pdfY - page.viewBoxMinY) * page.scale
      some ⟨localX, page.top + localY, pageNum⟩

/-- A value stored in the result object of the forward script's
`parseSynctexOutput`: a string value, or a `parseInt` result for the
`line`/`column` keys (`none` = NaN). -/
inductive SVal where
  | str (s : String)
  | num (n : Option Int)
  deriving DecidableEq, Repr

/-- Splitting a character list on a separator, keeping empty segments, as JS
`String.prototype.split` does with a single-character separator. -/
def splitCharsAux (sep : Char) : List Char → List Char → List (List Char)
  | [], acc => [acc.reverse]
  | c :: rest, acc =>
      if c = sep then acc.reverse :: splitCharsAux sep rest []
      else splitCharsAux sep rest (c :: acc)

/-- JS `output.split('\n')`. -/
def splitLines (s : String) : List String :=
  (splitCharsAux (Char.ofNat 10) s.toList []).map String.mk

/-- JS `key.toLowerCase()` on the ASCII keys the oracle emits. -/
def lowerStr (s : String) : String := String.mk (s.toList.map Char.toLower)

/-- Value of a decimal digit string. -/
def digitsToNat (cs : List Char) : Nat :=
  cs.foldl (fun n c => n * 10 + (c.toNat - 48)) 0

/-- Word character of the regex class `\w`. -/
def isWordChar (c : Char) : Bool :=
  c.isAlpha || c.isDigit || c = '_'

/-- One line against the regex `^(\w+):(.+)$`: a nonempty maximal word-char
prefix, a colon, then a nonempty remainder. -/
def parseLine (line : String) : Option (String × String) :=
  let cs := line.toList
  let key := cs.takeWhile isWordChar
  match cs.dropWhile isWordChar with
  | ':' :: vs => if key.isEmpty || vs.isEmpty then none else some (String.mk key, String.mk vs)
  | _ => none

/-- JS `parseInt(s)` restricted to what the oracle emits: an optional sign
followed by leading decimal digits; no digits gives NaN (`none`). -/
def jsParseInt (s : String) : Option Int :=
  let cs := s.toList.dropWhile (fun c => c = ' ')
  let sign : Int × List Char :=
    match cs with
    | '-' :: rest => (-1, rest)
    | '+' :: rest => (1, rest)
    | _ => (1, cs)
  let digits := sign.2.takeWhile Char.isDigit
  if digits.isEmpty then none
  else some (sign.1 * digitsToNat digits)

/-- The forward script's `parseSynctexOutput`: keep each line matching
`^(\w+):(.+)$`, lowercase the key, parse `line`/`column` values with
`parseInt`.  The JS object is modelled as the assignment list in line order
(a later assignment to a key overrides an earlier one on lookup). -/
def parseSynctexOutput (output : String) : List (String × SVal) :=
  (splitLines output).filterMap fun line =>
    (parseLine line).map fun kv =>
      let key := lowerStr kv.1
      if key = "line" || key = "column" then (key, SVal.num (jsParseInt kv.2))
      else (key, SVal.str kv.2)

/-- JS object property lookup on the assignment list: the last assignment to
the key wins; an absent key reads `undefined` (`none`). -/
def objGet (r : List (String × SVal)) (k : String) : Option SVal :=
  r.reverse.lookup k

/-- JS truthiness of a stored value: the empty string, `0` and NaN are
falsy. -/
def SVal.truthy : SVal → Bool
  | .str s => !s.isEmpty
  | .num none => false
  | .num (some n) => decide (n ≠ 0)

/-- The not-found test the forward script's caller applies to a parsed
oracle response: `result.input && result.line` (an absent key reads
`undefined`, which is falsy). -/
def isFound (r : List (String × SVal)) : Bool :=
  (match objGet r "input" with | some v => v.truthy | none => false) &&
  (match objGet r "line" with | some v => v.truthy | none => false)

/-- Outcome of the `execSync` call inside `synctexLookup`, as the JS runtime
reports it: success with the captured stdout, or an exception carrying the
captured stdout when any (`none` when the process could not start, e.g. the
oracle binary is absent) and a message. -/
inductive ExecResult where
  | success (stdout : String)
  | failure (stdout : Option String) (message : String)
  deriving DecidableEq, Repr

/-- Result type of `synctexLookup`: a parsed response object, or the
`{ error: e.message }` object of the catch branch. -/
inductive OracleOutcome where
  | parsed (result : List (String × SVal))
  | procError (msg : String)
  deriving DecidableEq, Repr

/-- `synctexLookup`'s handling of the oracle process outcome: parse the
stdout of a successful run; on an exception, parse `e.stdout` when it is
truthy (a nonempty captured string), otherwise return the error object. -/
def synctexLookup (r : ExecResult) : OracleOutcome :=
  match r with
  | .success out => .parsed (parseSynctexOutput out)
  | .failure (some out) msg =>
      if out.isEmpty then .procError msg else .parsed (parseSynctexOutput out)
  | .failure none msg => .procError msg

/-! Helper definitions and lemmas shared by the claim theorems. -/

/-- The eight fields of a forward-script page record that the reverse script
also stores. -/
def projFwd (p : PageGeometry) : Nat × ℚ × ℚ × ℚ × ℚ × ℚ × ℚ × ℚ :=
  (p.pageNum, p.origWidth, p.origHeight, p.viewBoxMinX, p.viewBoxMinY, p.scale, p.top, p.bottom)

/-- All fields of a reverse-script page record, in the same order. -/
def projRev (p : PageGeometryRev) : Nat × ℚ × ℚ × ℚ × ℚ × ℚ × ℚ × ℚ :=
  (p.pageNum, p.origWidth, p.origHeight, p.viewBoxMinX, p.viewBoxMinY, p.scale, p.top, p.bottom)

/-- A page file whose extracted geometry has positive native width and
height (every real page does; the data model declares them positive). -/
def Good (a : SvgAttrs) : Prop :=
  0 < (resolveGeom a).origWidth ∧ 0 < (resolveGeom a).origHeight

theorem getPageDimensionsAux_length (cs : List SvgAttrs) :
    ∀ n t, (getPageDimensionsAux cs n t).length = cs.length := by
  induction cs with
  | nil => intro n t; rfl
  | cons a rest ih => intro n t; simp [getPageDimensionsAux, ih]

theorem getPageDimensionsAux_getElem? (cs : List SvgAttrs) :
    ∀ n t k a, cs[k]? = some a →
      ∃ t', (getPageDimensionsAux cs n t)[k]? = some (mkPage (n + k) t' a) := by
  induction cs with
  | nil => intro n t k a h; simp at h
  | cons a0 rest ih =>
    intro n t k a h
    cases k with
    | zero =>
      simp at h
      exact ⟨t, by simp [getPageDimensionsAux, h]⟩
    | succ k' =>
      simp only [List.getElem?_cons_succ] at h
      obtain ⟨t', ht'⟩ := ih (n + 1) (t + (mkPage n t a0).scaledHeight + PAGE_SPACING) k' a h
      refine ⟨t', ?_⟩
      simpa [getPageDimensionsAux, Nat.add_assoc, Nat.add_comm 1 k'] using ht'

theorem aux_proj_eq (cs : List SvgAttrs) :
    ∀ n t, (getPageDimensionsAux cs n t).map projFwd
      = (getPageDimensionsRevAux cs n t).map projRev := by
  induction cs with
  | nil => intro n t; rfl
  | cons a rest ih =>
    intro n t
    simp only [getPageDimensionsAux, getPageDimensionsRevAux, List.map_cons]
    have hhead : projFwd (mkPage n t a) = projRev (mkPageRev n t a) := by
      simp [projFwd, projRev, mkPage, mkPageRev]
    have hsh : (mkPageRev n t a).bottom - (mkPageRev n t a).top = (mkPage n t a).scaledHeight := by
      simp [mkPage, mkPageRev]
    rw [hhead, hsh, ih (n + 1)]

/-- The layout invariant of a forward page list starting at vertical
position `t`: each page's top is the running position, each band is
nonempty, and the next page starts one spacing below the bottom. -/
def Chained : ℚ → List PageGeometry → Prop
  | _, [] => True
  | t, p :: rest => p.top = t ∧ p.top < p.bottom ∧ Chained (p.bottom + PAGE_SPACING) rest

theorem mkPage_scale_pos {a : SvgAttrs} (h : Good a) (n : Nat) (t : ℚ) :
    0 < (mkPage n t a).scale := by
  have hw := h.1
  simp only [mkPage]
  exact div_pos (by norm_num [TARGET_WIDTH]) hw

theorem mkPage_top_lt_bottom {a : SvgAttrs} (h : Good a) (n : Nat) (t : ℚ) :
    (mkPage n t a).top < (mkPage n t a).bottom := by
  have hs : 0 < TARGET_WIDTH / (resolveGeom a).origWidth :=
    div_pos (by norm_num [TARGET_WIDTH]) h.1
  have hsh : 0 < (resolveGeom a).origHeight * (TARGET_WIDTH / (resolveGeom a).origWidth) :=
    mul_pos h.2 hs
  simp only [mkPage]
  linarith

theorem aux_chained (cs : List SvgAttrs) :
    ∀ n t, (∀ a ∈ cs, Good a) → Chained t (getPageDimensionsAux cs n t) := by
  induction cs with
  | nil => intro n t _; trivial
  | cons a rest ih =>
    intro n t hgood
    have ha : Good a := hgood a (by simp)
    refine ⟨rfl, mkPage_top_lt_bottom ha n t, ?_⟩
    have hbot : (mkPage n t a).bottom + PAGE_SPACING
        = t + (mkPage n t a).scaledHeight + PAGE_SPACING := by
      simp [mkPage]
    rw [hbot]
    exact ih (n + 1) _ (fun b hb => hgood b (by simp [hb]))

theorem chained_le_top {ps : List PageGeometry} :
    ∀ {t : ℚ}, Chained t ps → ∀ {k : Nat} {p : PageGeometry}, ps[k]? = some p → t ≤ p.top := by
  induction ps with
  | nil => intro t _ k p h; simp at h
  | cons q rest ih =>
    intro t hc k p h
    obtain ⟨htop, hlt, hrest⟩ := hc
    cases k with
    | zero =>
      simp at h
      rw [← h, htop]
    | succ k' =>
      simp only [List.getElem?_cons_succ] at h
      have hle := ih hrest h
      have hPS : (0 : ℚ) < PAGE_SPACING := by norm_num [PAGE_SPACING]
      linarith [htop ▸ hlt]

theorem chained_top_lt_bottom {ps : List PageGeometry} :
    ∀ {t : ℚ}, Chained t ps → ∀ {k : Nat} {p : PageGeometry}, ps[k]? = some p →
      p.top < p.bottom := by
  induction ps with
  | nil => intro t _ k p h; simp at h
  | cons q rest ih =>
    intro t hc k p h
    obtain ⟨htop, hlt, hrest⟩ := hc
    cases k with
    | zero => simp at h; rw [← h]; exact hlt
    | succ k' =>
      simp only [List.getElem?_cons_succ] at h
      exact ih hrest h

theorem chained_succ_top {ps : List PageGeometry} :
    ∀ {t : ℚ}, Chained t ps → ∀ {k : Nat} {p q : PageGeometry},
      ps[k]? = some p → ps[k + 1]? = some q → q.top = p.bottom + PAGE_SPACING := by
  induction ps with
  | nil => intro t _ k p q h _; simp at h
  | cons q0 rest ih =>
    intro t hc k p q hp hq
    obtain ⟨htop, hlt, hrest⟩ := hc
    cases k with
    | zero =>
      simp at hp
      simp only [List.getElem?_cons_succ] at hq
      cases rest with
      | nil => simp at hq
      | cons r rest' =>
        simp at hq
        obtain ⟨htop', _, _⟩ := hrest
        rw [← hq, htop', ← hp]
    | succ k' =>
      simp only [List.getElem?_cons_succ] at hp hq
      exact ih hrest hp hq

theorem chained_gap_le {ps : List PageGeometry} :
    ∀ {t : ℚ}, Chained t ps → ∀ {k j : Nat} {p q : PageGeometry}, k < j →
      ps[k]? = some p → ps[j]? = some q → p.bottom + PAGE_SPACING ≤ q.top := by
  induction ps with
  | nil => intro t _ k j p q _ h _; simp at h
  | cons q0 rest ih =>
    intro t hc k j p q hkj hp hq
    obtain ⟨htop, hlt, hrest⟩ := hc
    cases k with
    | zero =>
      simp at hp
      obtain ⟨j', rfl⟩ : ∃ j', j = j' + 1 := ⟨j - 1, by omega⟩
      simp only [List.getElem?_cons_succ] at hq
      rw [← hp]
      exact chained_le_top hrest hq
    | succ k' =>
      obtain ⟨j', rfl⟩ : ∃ j', j = j' + 1 := ⟨j - 1, by omega⟩
      simp only [List.getElem?_cons_succ] at hp hq
      exact ih hrest (by omega) hp hq

theorem chained_find_eq {ps : List PageGeometry} :
    ∀ {t : ℚ}, Chained t ps → ∀ {k : Nat} {p : PageGeometry} {y : ℚ},
      ps[k]? = some p → inBand y p = true → ps.find? (inBand y) = some p := by
  induction ps with
  | nil => intro t _ k p y h _; simp at h
  | cons q0 rest ih =>
    intro t hc k p y hp hband
    obtain ⟨htop, hlt, hrest⟩ := hc
    cases k with
    | zero =>
      simp at hp
      rw [List.find?_cons, hp, hband]
    | succ k' =>
      simp only [List.getElem?_cons_succ] at hp
      have hgap : q0.bottom + PAGE_SPACING ≤ p.top := by
        have := chained_le_top hrest hp
        linarith
      have hy : p.top ≤ y := by
        have h1 := hband
        simp only [inBand, Bool.and_eq_true, decide_eq_true_eq] at h1
        exact h1.1
      have hq0 : inBand y q0 = false := by
        simp only [inBand, Bool.and_eq_false_iff, decide_eq_false_iff_not, not_lt]
        right
        have hPS : (0 : ℚ) < PAGE_SPACING := by norm_num [PAGE_SPACING]
        linarith
      rw [List.find?_cons, hq0]
      exact ih hrest hp hband

theorem getPageDimensions_length (cs : List SvgAttrs) :
    (getPageDimensions cs).length = cs.length :=
  getPageDimensionsAux_length cs 1 0

theorem getPageDimensionsRev_length (cs : List SvgAttrs) :
    (getPageDimensionsRev cs).length = cs.length := by
  have h := aux_proj_eq cs 1 0
  have h1 := congrArg List.length h
  simpa [getPageDimensionsAux_length, getPageDimensions, getPageDimensionsRev] using h1.symm

theorem getPageDimensions_chained (cs : List SvgAttrs) (hgood : ∀ a ∈ cs, Good a) :
    Chained 0 (getPageDimensions cs) :=
  aux_chained cs 1 0 hgood

theorem getPageDimensions_pageNum {cs : List SvgAttrs} {k : Nat} {p : PageGeometry}
    (h : (getPageDimensions cs)[k]? = some p) : p.pageNum = k + 1 := by
  have hlen : k < cs.length := by
    have := List.getElem?_eq_some_iff.mp h
    obtain ⟨hk, _⟩ := this
    simpa [getPageDimensions_length] using hk
  obtain ⟨a, ha⟩ : ∃ a, cs[k]? = some a := ⟨cs[k], by simp [List.getElem?_eq_getElem hlen]⟩
  obtain ⟨t', ht'⟩ := getPageDimensionsAux_getElem? cs 1 0 k a ha
  rw [getPageDimensions] at h
  rw [h] at ht'
  have := Option.some.inj ht'
  rw [this]
  simp [mkPage, Nat.add_comm]

/-- The reverse list's entry at `k` shares the eight common fields with the
forward list's entry at `k`. -/
theorem rev_getElem_proj (cs : List SvgAttrs) (k : Nat) :
    ((getPageDimensionsRev cs)[k]?).map projRev = ((getPageDimensions cs)[k]?).map projFwd := by
  have h := aux_proj_eq cs 1 0
  have h1 := congrArg (fun l => l[k]?) h
  simpa [getPageDimensions, getPageDimensionsRev] using h1.symm

/-- First-match semantics of `List.find?`: if the predicate holds at index
`k` and at no earlier index, `find?` returns the element at `k`. -/
theorem find_first_match {α : Type} (p : α → Bool) :
    ∀ (l : List α) (k : Nat) (x : α), l[k]? = some x → p x = true →
      (∀ j, j < k → ∀ z, l[j]? = some z → p z = false) →
      l.find? p = some x := by
  intro l
  induction l with
  | nil => intro k x hx; simp at hx
  | cons a rest ih =>
    intro k x hx hp hbefore
    cases k with
    | zero =>
      simp at hx
      subst hx
      simp [List.find?_cons, hp]
    | succ k' =>
      have ha : p a = false := hbefore 0 (Nat.succ_pos k') a (by simp)
      simp only [List.getElem?_cons_succ] at hx
      simp [List.find?_cons, ha]
      exact ih k' x hx hp
        (fun j hj z hz => hbefore (j + 1) (by omega) z (by simpa using hz))

/-- Every page record the forward resolver produces from good page files has
positive scale. -/
theorem getPageDimensions_scale_pos {cs : List SvgAttrs} (hgood : ∀ a ∈ cs, Good a)
    {k : Nat} {p : PageGeometry} (h : (getPageDimensions cs)[k]? = some p) :
    0 < p.scale := by
  have hk : k < cs.length := by
    have := (List.getElem?_eq_some_iff.mp h).1
    simpa [getPageDimensions_length] using this
  have ha : cs[k]? = some cs[k] := List.getElem?_eq_getElem hk
  obtain ⟨t', ht'⟩ := getPageDimensionsAux_getElem? cs 1 0 k cs[k] ha
  rw [getPageDimensions] at h
  rw [h] at ht'
  rw [Option.some.inj ht']
  exact mkPage_scale_pos (hgood cs[k] (List.getElem_mem hk)) _ _

/-! Concrete demonstration inputs used by the witness theorems: a document
whose page files carry no geometry metadata, so every page gets the default
600 x 800 native size, scale 4/3, scaled height 3200/3, and spacing 32. -/

/-- A page file with no viewBox declaration and no width/height attribute. -/
def defaultAttrs : SvgAttrs := ⟨none, none, none⟩

/-- Page 1 of the demonstration document, as the forward resolver builds it. -/
def demoPage1 : PageGeometry :=
  ⟨1, 600, 800, 0, 0, 800, 3200 / 3, 4 / 3, 0, 3200 / 3⟩

/-- Page 2 of the demonstration document, as the forward resolver builds it. -/
def demoPage2 : PageGeometry :=
  ⟨2, 600, 800, 0, 0, 800, 3200 / 3, 4 / 3, 3296 / 3, 6496 / 3⟩

/-- Page 1 of the demonstration document, as the reverse resolver builds it. -/
def demoRev1 : PageGeometryRev := ⟨1, 600, 800, 0, 0, 4 / 3, 0, 3200 / 3⟩

/-- Page 2 of the demonstration document, as the reverse resolver builds it. -/
def demoRev2 : PageGeometryRev := ⟨2, 600, 800, 0, 0, 4 / 3, 3296 / 3, 6496 / 3⟩

theorem good_defaultAttrs : Good defaultAttrs := by
  constructor <;> norm_num [resolveGeom, defaultAttrs]

theorem demo1_eval : getPageDimensions [defaultAttrs] = [demoPage1] := by
  norm_num [getPageDimensions, getPageDimensionsAux, mkPage, resolveGeom, defaultAttrs,
    demoPage1, TARGET_WIDTH, PAGE_SPACING]

theorem demo2_eval :
    getPageDimensions [defaultAttrs, defaultAttrs] = [demoPage1, demoPage2] := by
  norm_num [getPageDimensions, getPageDimensionsAux, mkPage, resolveGeom, defaultAttrs,
    demoPage1, demoPage2, TARGET_WIDTH, PAGE_SPACING]

theorem demoRev1_eval : getPageDimensionsRev [defaultAttrs] = [demoRev1] := by
  norm_num [getPageDimensionsRev, getPageDimensionsRevAux, mkPageRev, resolveGeom,
    defaultAttrs, demoRev1, TARGET_WIDTH, PAGE_SPACING]

theorem demoRev2_eval :
    getPageDimensionsRev [defaultAttrs, defaultAttrs] = [demoRev1, demoRev2] := by
  norm_num [getPageDimensionsRev, getPageDimensionsRevAux, mkPageRev, resolveGeom,
    defaultAttrs, demoRev1, demoRev2, TARGET_WIDTH, PAGE_SPACING]

/-! Claim theorems. -/

/-- C2: for every page-geometry list with at least one page produced by
`getPageDimensions` from pages with positive native dimensions, `top` is
strictly increasing in page index, the `[top, bottom)` bands are
non-overlapping, and `bottom + PAGE_SPACING` of each page equals the `top`
of the next. -/
theorem layout_bands_invariant (contents : List SvgAttrs) (hN : 1 ≤ contents.length)
    (hgood : ∀ a ∈ contents, Good a) :
    (∀ (k j : Nat) (p q : PageGeometry), k < j →
        (getPageDimensions contents)[k]? = some p →
        (getPageDimensions contents)[j]? = some q →
        p.top < q.top ∧ p.bottom ≤ q.top) ∧
    (∀ (k : Nat) (p q : PageGeometry),
        (getPageDimensions contents)[k]? = some p →
        (getPageDimensions contents)[k + 1]? = some q →
        p.bottom + PAGE_SPACING = q.top) := by
  have hch := getPageDimensions_chained contents hgood
  constructor
  · intro k j p q hkj hp hq
    have hgap := chained_gap_le hch hkj hp hq
    have hband := chained_top_lt_bottom hch hp
    have hPS : (0 : ℚ) < PAGE_SPACING := by norm_num [PAGE_SPACING]
    constructor <;> linarith
  · intro k p q hp hq
    exact (chained_succ_top hch hp hq).symm

/-- Witness for C2 on a two-page document of default-size pages. -/
theorem layout_bands_invariant_witness :
    demoPage1.top < demoPage2.top ∧
    demoPage1.bottom + PAGE_SPACING = demoPage2.top := by
  have h := layout_bands_invariant [defaultAttrs, defaultAttrs] (by norm_num)
    (by intro a ha; simp at ha; rw [ha]; exact good_defaultAttrs)
  have hp : (getPageDimensions [defaultAttrs, defaultAttrs])[0]? = some demoPage1 := by
    rw [demo2_eval]; rfl
  have hq : (getPageDimensions [defaultAttrs, defaultAttrs])[0 + 1]? = some demoPage2 := by
    rw [demo2_eval]; rfl
  exact ⟨(h.1 0 1 demoPage1 demoPage2 (by omega) hp hq).1, h.2 0 demoPage1 demoPage2 hp hq⟩

/-- C3: on any nonempty geometry list, `tldrawToPdfCoords` returns, for the
page `findPageForY` selects, exactly `x / scale + viewBoxMinX` and
`(y - top) / scale + viewBoxMinY`. -/
theorem tldrawToPdfCoords_formula (pages : List PageGeometry) (hne : pages ≠ [])
    (x y : ℚ) :
    ∃ page, findPageForY pages y = some page ∧
      tldrawToPdfCoords pages x y = some ⟨page.pageNum,
        x / page.scale + page.viewBoxMinX,
        (y - page.top) / page.scale + page.viewBoxMinY,
        x, y - page.top, page.origWidth, page.origHeight⟩ := by
  have hsome : ∃ page, findPageForY pages y = some page := by
    unfold findPageForY
    cases hf : pages.find? (inBand y) with
    | some p => exact ⟨p, rfl⟩
    | none =>
      cases hl : pages.getLast? with
      | some p => exact ⟨p, rfl⟩
      | none => exact absurd (List.getLast?_eq_none_iff.mp hl) hne
  obtain ⟨page, hp⟩ := hsome
  exact ⟨page, hp, by rw [tldrawToPdfCoords, hp]⟩

/-- Witness for C3 on a one-page document at canvas point (30, 40). -/
theorem tldrawToPdfCoords_formula_witness :
    ∃ page, findPageForY (getPageDimensions [defaultAttrs]) 40 = some page ∧
      tldrawToPdfCoords (getPageDimensions [defaultAttrs]) 30 40 = some ⟨page.pageNum,
        30 / page.scale + page.viewBoxMinX,
        (40 - page.top) / page.scale + page.viewBoxMinY,
        30, 40 - page.top, page.origWidth, page.origHeight⟩ :=
  tldrawToPdfCoords_formula (getPageDimensions [defaultAttrs])
    (by rw [demo1_eval]; exact List.cons_ne_nil _ _) 30 40

/-- C4: `findPageForY` selects by forward scan the first page whose
half-open band contains `y`; when no band contains `y` (a spacing gap or
beyond the last page) it returns the last page, and on a nonempty list it
always returns a page (no exception). -/
theorem findPageForY_policy (pages : List PageGeometry) (hne : pages ≠ []) (y : ℚ) :
    (∀ (k : Nat) (x : PageGeometry), pages[k]? = some x → inBand y x = true →
      (∀ (j : Nat), j < k → ∀ z, pages[j]? = some z → inBand y z = false) →
      findPageForY pages y = some x) ∧
    ((∀ p ∈ pages, inBand y p = false) → findPageForY pages y = pages.getLast?) ∧
    (∃ p, findPageForY pages y = some p) := by
  refine ⟨?_, ?_, ?_⟩
  · intro k x hx hband hbefore
    have hfind := find_first_match (inBand y) pages k x hx hband hbefore
    rw [findPageForY, hfind]
  · intro hall
    have hfind : pages.find? (inBand y) = none :=
      List.find?_eq_none.mpr (fun x hx => by rw [hall x hx]; simp)
    rw [findPageForY, hfind]
  · unfold findPageForY
    cases hf : pages.find? (inBand y) with
    | some p => exact ⟨p, rfl⟩
    | none =>
      cases hl : pages.getLast? with
      | some p => exact ⟨p, rfl⟩
      | none => exact absurd (List.getLast?_eq_none_iff.mp hl) hne

/-- Witness for C4: y = 1070 lies in the spacing gap of a two-page
default-size document (bands end at 3200/3 and restart at 3296/3) and is
attributed to the last page. -/
theorem findPageForY_policy_witness :
    findPageForY (getPageDimensions [defaultAttrs, defaultAttrs]) 1070
      = (getPageDimensions [defaultAttrs, defaultAttrs]).getLast? := by
  apply (findPageForY_policy (getPageDimensions [defaultAttrs, defaultAttrs])
    (by rw [demo2_eval]; exact List.cons_ne_nil _ _) 1070).2.1
  intro p hp
  rw [demo2_eval] at hp
  simp at hp
  rcases hp with h | h <;> rw [h] <;> simp [inBand, demoPage1, demoPage2] <;> norm_num

/-- C5: `pdfToTldrawCoords` yields no coordinate (throws) for page number 0
or any page number above the page count, and yields a coordinate for every
page number in `1..N`. -/
theorem pdfToTldrawCoords_page_range (pages : List PageGeometryRev) (p : Nat) (x y : ℚ) :
    ((p = 0 ∨ pages.length < p) → pdfToTldrawCoords pages p x y = none) ∧
    (1 ≤ p → p ≤ pages.length → ∃ tc, pdfToTldrawCoords pages p x y = some tc) := by
  constructor
  · rintro (rfl | hgt)
    · simp [pdfToTldrawCoords]
    · have h0 : p ≠ 0 := by omega
      have hge : pages.length ≤ p - 1 := by omega
      simp [pdfToTldrawCoords, h0, List.getElem?_eq_none hge]
  · intro h1 h2
    have h0 : p ≠ 0 := by omega
    have hlt : p - 1 < pages.length := by omega
    have hpg : pages[p - 1]? = some (pages.get ⟨p - 1, hlt⟩) := by
      simp [List.getElem?_eq_getElem hlt]
    refine ⟨⟨(x - (pages.get ⟨p - 1, hlt⟩).viewBoxMinX) * (pages.get ⟨p - 1, hlt⟩).scale,
      (pages.get ⟨p - 1, hlt⟩).top
        + (y - (pages.get ⟨p - 1, hlt⟩).viewBoxMinY) * (pages.get ⟨p - 1, hlt⟩).scale,
      p⟩, ?_⟩
    simp only [pdfToTldrawCoords, if_neg h0, hpg]

/-- Witness for C5 on a one-page document: page 2 is rejected, page 1 is
converted. -/
theorem pdfToTldrawCoords_page_range_witness :
    pdfToTldrawCoords (getPageDimensionsRev [defaultAttrs]) 2 5 7 = none ∧
    ∃ tc, pdfToTldrawCoords (getPageDimensionsRev [defaultAttrs]) 1 5 7 = some tc :=
  ⟨(pdfToTldrawCoords_page_range (getPageDimensionsRev [defaultAttrs]) 2 5 7).1
      (Or.inr (by rw [demoRev1_eval]; norm_num)),
   (pdfToTldrawCoords_page_range (getPageDimensionsRev [defaultAttrs]) 1 5 7).2
      (by omega) (by rw [demoRev1_eval]; norm_num)⟩

/-- C6: with zero pages resolved, both resolvers return the empty geometry
list and every conversion on it yields the error outcome rather than a
coordinate (the JS code dereferences an undefined page and throws). -/
theorem zero_pages_conversion_fails (x y : ℚ) (p : Nat) :
    getPageDimensions [] = [] ∧ getPageDimensionsRev [] = [] ∧
    findPageForY (getPageDimensions []) y = none ∧
    tldrawToPdfCoords (getPageDimensions []) x y = none ∧
    pdfToTldrawCoords (getPageDimensionsRev []) p x y = none := by
  refine ⟨rfl, rfl, rfl, rfl, ?_⟩
  by_cases h : p = 0 <;> simp [pdfToTldrawCoords, getPageDimensionsRev,
    getPageDimensionsRevAux, h]

/-- C7: an oracle response in which no line matches the key:value pattern
parses to an empty result, which the not-found test rejects (OracleNotFound);
a failed process with no captured output yields the distinct error object
(OracleProcessError), different from every parsed outcome in the return
type; and a failed process whose output is nonempty is still parsed, so
not-found is decided by the keys of the response, never by the exit code. -/
theorem oracle_outcome_model (out s msg : String)
    (hnolines : ∀ line ∈ splitLines out, parseLine line = none)
    (hs : s.isEmpty = false) :
    synctexLookup (ExecResult.success out) = OracleOutcome.parsed [] ∧
    isFound ([] : List (String × SVal)) = false ∧
    synctexLookup (ExecResult.failure none msg) = OracleOutcome.procError msg ∧
    synctexLookup (ExecResult.failure (some s) msg)
      = OracleOutcome.parsed (parseSynctexOutput s) ∧
    (∀ (r : List (String × SVal)) (m : String),
      OracleOutcome.parsed r ≠ OracleOutcome.procError m) := by
  refine ⟨?_, rfl, rfl, ?_, ?_⟩
  · have hmap : parseSynctexOutput out = [] := by
      unfold parseSynctexOutput
      refine List.filterMap_eq_nil_iff.mpr ?_
      intro line hline
      rw [hnolines line hline]
      rfl
    rw [synctexLookup, hmap]
  · rw [synctexLookup, hs]
    rfl
  · intro r m h
    exact OracleOutcome.noConfusion h

/-- Witness for C7: a response of prose only is not-found; an absent binary
(no captured stdout) is a process error; a failing process whose stdout
still carries a `Line:` key is parsed. -/
theorem oracle_outcome_model_witness :
    synctexLookup (ExecResult.success "hello world") = OracleOutcome.parsed [] ∧
    isFound ([] : List (String × SVal)) = false ∧
    synctexLookup (ExecResult.failure none "ENOENT") = OracleOutcome.procError "ENOENT" ∧
    synctexLookup (ExecResult.failure (some "Line:3") "ENOENT")
      = OracleOutcome.parsed (parseSynctexOutput "Line:3") := by
  have h := oracle_outcome_model "hello world" "Line:3" "ENOENT" (by decide) (by decide)
  exact ⟨h.1, h.2.1, h.2.2.1, h.2.2.2.1⟩

/-- C8: a page whose file content yields no viewBox and no width/height
attribute gets the documented default native size 600 x 800, hence scale
`800 / 600`, wherever it sits in the document. -/
theorem default_geometry_fallback (contents : List SvgAttrs) (k : Nat) (a : SvgAttrs)
    (ha : contents[k]? = some a)
    (hnone : a.viewBox = none ∧ a.width = none ∧ a.height = none) :
    ∃ p, (getPageDimensions contents)[k]? = some p ∧
      p.origWidth = 600 ∧ p.origHeight = 800 ∧ p.scale = (800 : ℚ) / 600 := by
  obtain ⟨t', ht'⟩ := getPageDimensionsAux_getElem? contents 1 0 k a ha
  refine ⟨_, ht', ?_, ?_, ?_⟩ <;>
    simp [mkPage, resolveGeom, hnone.1, hnone.2.1, hnone.2.2, TARGET_WIDTH]

/-- Witness for C8: the single metadata-free page of the demonstration
document gets the default geometry. -/
theorem default_geometry_fallback_witness :
    ∃ p, (getPageDimensions [defaultAttrs])[0]? = some p ∧
      p.origWidth = 600 ∧ p.origHeight = 800 ∧ p.scale = (800 : ℚ) / 600 :=
  default_geometry_fallback [defaultAttrs] 0 defaultAttrs rfl ⟨rfl, rfl, rfl⟩

/-- C9: a canvas `y` strictly above the first page (whose `top` is 0) finds
no band in the forward scan and falls through to the same fallback as points
beyond the last page: the LAST page of the list — for a document of at least
two pages this is not page 1. -/
theorem before_first_page_maps_to_last (contents : List SvgAttrs)
    (hgood : ∀ a ∈ contents, Good a) (hne : contents ≠ []) (y : ℚ) (hy : y < 0) :
    (∀ p0, (getPageDimensions contents).head? = some p0 → p0.top = 0 ∧ y < p0.top) ∧
    findPageForY (getPageDimensions contents) y = (getPageDimensions contents).getLast? ∧
    (2 ≤ contents.length → ∀ p,
      findPageForY (getPageDimensions contents) y = some p →
      p.pageNum = contents.length ∧ p.pageNum ≠ 1) := by
  have hch := getPageDimensions_chained contents hgood
  have hlen : (getPageDimensions contents).length = contents.length :=
    getPageDimensions_length contents
  have hnil : getPageDimensions contents ≠ [] := by
    intro h
    exact hne (List.length_eq_zero.mp (by rw [← hlen, h]; rfl))
  have hall : ∀ p ∈ getPageDimensions contents, inBand y p = false := by
    intro p hp
    obtain ⟨k, hk, he⟩ := List.mem_iff_getElem.mp hp
    have hk' : (getPageDimensions contents)[k]? = some p := by
      simp [List.getElem?_eq_getElem hk, he]
    have htop := chained_le_top hch hk'
    simp only [inBand, Bool.and_eq_false_iff, decide_eq_false_iff_not, not_le]
    left
    linarith
  have hfall : findPageForY (getPageDimensions contents) y
      = (getPageDimensions contents).getLast? := by
    have hfind : (getPageDimensions contents).find? (inBand y) = none :=
      List.find?_eq_none.mpr (fun x hx => by rw [hall x hx]; simp)
    rw [findPageForY, hfind]
  refine ⟨?_, hfall, ?_⟩
  · intro p0 hp0
    have h0 : (getPageDimensions contents)[0]? = some p0 := by
      rwa [← List.head?_eq_getElem?]
    cases contents with
    | nil => exact absurd rfl hne
    | cons a rest =>
      have : (getPageDimensions (a :: rest))[0]? = some (mkPage 1 0 a) := by
        simp [getPageDimensions, getPageDimensionsAux]
      rw [this] at h0
      have hp := Option.some.inj h0
      constructor
      · rw [← hp]; rfl
      · rw [← hp]; simpa [mkPage] using hy
  · intro h2 p hp
    rw [hfall] at hp
    have hlast : (getPageDimensions contents).getLast?
        = (getPageDimensions contents)[(getPageDimensions contents).length - 1]? :=
      List.getLast?_eq_getElem? _
    rw [hlast] at hp
    have hnum := getPageDimensions_pageNum hp
    rw [hlen] at hnum
    have hpos : 1 ≤ contents.length := by
      cases contents with
      | nil => exact absurd rfl hne
      | cons a rest => simp
    constructor
    · omega
    · omega

/-- Witness for C9: y = -5 on the two-page demonstration document maps to
page 2, the last page. -/
theorem before_first_page_maps_to_last_witness :
    findPageForY (getPageDimensions [defaultAttrs, defaultAttrs]) (-5)
      = (getPageDimensions [defaultAttrs, defaultAttrs]).getLast? :=
  (before_first_page_maps_to_last [defaultAttrs, defaultAttrs]
    (by intro a ha; simp at ha; rw [ha]; exact good_defaultAttrs)
    (List.cons_ne_nil _ _) (-5) (by norm_num)).2.1

/-- The reverse resolver's entry at index `k` exists whenever the forward
resolver's does, and the two agree on all stored fields. -/
theorem rev_page_of_fwd {cs : List SvgAttrs} {k : Nat} {pg : PageGeometry}
    (h : (getPageDimensions cs)[k]? = some pg) :
    ∃ pr : PageGeometryRev, (getPageDimensionsRev cs)[k]? = some pr ∧
      pr.pageNum = pg.pageNum ∧ pr.origWidth = pg.origWidth ∧
      pr.origHeight = pg.origHeight ∧ pr.viewBoxMinX = pg.viewBoxMinX ∧
      pr.viewBoxMinY = pg.viewBoxMinY ∧ pr.scale = pg.scale ∧
      pr.top = pg.top ∧ pr.bottom = pg.bottom := by
  have hproj := rev_getElem_proj cs k
  rw [h] at hproj
  simp only [Option.map_some'] at hproj
  obtain ⟨pr, hpr, hpe⟩ := Option.map_eq_some'.mp hproj
  refine ⟨pr, hpr, ?_⟩
  simpa [projFwd, projRev, Prod.ext_iff] using hpe

/-- C10: the two independently duplicated resolvers agree, page by page, on
pageNum, origWidth, origHeight, viewBoxMinX, viewBoxMinY, scale, top and
bottom for every input. -/
theorem resolvers_equivalent (contents : List SvgAttrs) :
    (getPageDimensions contents).map projFwd
      = (getPageDimensionsRev contents).map projRev :=
  aux_proj_eq contents 1 0

/-- C1: on geometry resolved from pages of positive native size, converting
document-to-canvas (`pdfToTldrawCoords`, reverse script) and then
canvas-to-document (`tldrawToPdfCoords`, forward script) returns the
original `(page, nativeX, nativeY)` exactly, provided the canvas point lies
inside the chosen page's `[top, bottom)` band; and the composition in the
opposite order returns the original canvas point `(x, y)` exactly whenever
`y` lies inside some page's band.  Exact equality in ℚ implies the claimed
1e-6 relative tolerance. -/
theorem roundtrip_law (contents : List SvgAttrs) (hgood : ∀ a ∈ contents, Good a) :
    (∀ (pageNum : Nat) (nX nY : ℚ) (tc : TldrawCoords) (pg : PageGeometry),
      pdfToTldrawCoords (getPageDimensionsRev contents) pageNum nX nY = some tc →
      (getPageDimensions contents)[pageNum - 1]? = some pg →
      pg.top ≤ tc.tldrawY → tc.tldrawY < pg.bottom →
      ∃ pc, tldrawToPdfCoords (getPageDimensions contents) tc.tldrawX tc.tldrawY
          = some pc ∧ pc.page = pageNum ∧ pc.pdfX = nX ∧ pc.pdfY = nY) ∧
    (∀ (x y : ℚ) (k : Nat) (pg : PageGeometry) (pc : PdfCoords),
      (getPageDimensions contents)[k]? = some pg →
      pg.top ≤ y → y < pg.bottom →
      tldrawToPdfCoords (getPageDimensions contents) x y = some pc →
      pdfToTldrawCoords (getPageDimensionsRev contents) pc.page pc.pdfX pc.pdfY
        = some ⟨x, y, pc.page⟩) := by
  have hch := getPageDimensions_chained contents hgood
  constructor
  · intro pageNum nX nY tc pg hconv hpg htop hbot
    have hscale := getPageDimensions_scale_pos hgood hpg
    have hsne : pg.scale ≠ 0 := ne_of_gt hscale
    rw [pdfToTldrawCoords] at hconv
    by_cases h0 : pageNum = 0
    · rw [if_pos h0] at hconv
      exact absurd hconv (by simp)
    rw [if_neg h0] at hconv
    obtain ⟨pr, hpr, hfe⟩ := rev_page_of_fwd hpg
    rw [hpr] at hconv
    have htc := Option.some.inj hconv
    obtain ⟨hnum, _, _, hminX, hminY, hsc, htp, _⟩ := hfe
    have hband : inBand tc.tldrawY pg = true := by
      simp only [inBand, Bool.and_eq_true, decide_eq_true_eq]
      exact ⟨htop, hbot⟩
    have hfind : (getPageDimensions contents).find? (inBand tc.tldrawY) = some pg :=
      chained_find_eq hch hpg hband
    have hfpy : findPageForY (getPageDimensions contents) tc.tldrawY = some pg := by
      rw [findPageForY, hfind]
    refine ⟨_, by rw [tldrawToPdfCoords, hfpy], ?_, ?_, ?_⟩
    · have := getPageDimensions_pageNum hpg
      simp only [this]
      omega
    · have hx : tc.tldrawX = (nX - pg.viewBoxMinX) * pg.scale := by
        rw [← htc, ← hminX, ← hsc]
      rw [hx, mul_div_cancel_right₀ _ hsne]
      ring
    · have hy : tc.tldrawY = pg.top + (nY - pg.viewBoxMinY) * pg.scale := by
        rw [← htc, ← hminY, ← hsc, ← htp]
      rw [hy]
      have : pg.top + (nY - pg.viewBoxMinY) * pg.scale - pg.top
          = (nY - pg.viewBoxMinY) * pg.scale := by ring
      rw [this, mul_div_cancel_right₀ _ hsne]
      ring
  · intro x y k pg pc hpg htop hbot hconv
    have hscale := getPageDimensions_scale_pos hgood hpg
    have hsne : pg.scale ≠ 0 := ne_of_gt hscale
    have hband : inBand y pg = true := by
      simp only [inBand, Bool.and_eq_true, decide_eq_true_eq]
      exact ⟨htop, hbot⟩
    have hfind : (getPageDimensions contents).find? (inBand y) = some pg :=
      chained_find_eq hch hpg hband
    rw [tldrawToPdfCoords, findPageForY, hfind] at hconv
    have hpc := Option.some.inj hconv
    have hnum := getPageDimensions_pageNum hpg
    have hpage : pc.page = k + 1 := by rw [← hpc]; exact hnum
    obtain ⟨pr, hpr, hfe⟩ := rev_page_of_fwd hpg
    obtain ⟨_, _, _, hminX, hminY, hsc, htp, _⟩ := hfe
    rw [pdfToTldrawCoords, hpage, if_neg (Nat.succ_ne_zero k)]
    simp only [Nat.add_sub_cancel]
    simp only [hpr]
    have hpdfX : pc.pdfX = x / pg.scale + pg.viewBoxMinX := by rw [← hpc]
    have hpdfY : pc.pdfY = (y - pg.top) / pg.scale + pg.viewBoxMinY := by rw [← hpc]
    have hX : (pc.pdfX - pr.viewBoxMinX) * pr.scale = x := by
      rw [hpdfX, hminX, hsc]
      have : x / pg.scale + pg.viewBoxMinX - pg.viewBoxMinX = x / pg.scale := by ring
      rw [this, div_mul_cancel₀ _ hsne]
    have hY : pr.top + (pc.pdfY - pr.viewBoxMinY) * pr.scale = y := by
      rw [hpdfY, hminY, hsc, htp]
      have : (y - pg.top) / pg.scale + pg.viewBoxMinY - pg.viewBoxMinY
          = (y - pg.top) / pg.scale := by ring
      rw [this, div_mul_cancel₀ _ hsne]
      ring
    rw [hX, hY]

/-- Witness for C1 on the one-page demonstration document: document point
(page 1, 30, 40) goes to canvas (40, 160/3) and back exactly, and canvas
point (30, 40) goes to document (page 1, 45/2, 30) and back exactly. -/
theorem roundtrip_law_witness :
    (∃ pc, tldrawToPdfCoords (getPageDimensions [defaultAttrs]) 40 (160 / 3)
        = some pc ∧ pc.page = 1 ∧ pc.pdfX = 30 ∧ pc.pdfY = 40) ∧
    pdfToTldrawCoords (getPageDimensionsRev [defaultAttrs])
        (PdfCoords.page ⟨1, 45 / 2, 30, 30, 40, 600, 800⟩)
        (PdfCoords.pdfX ⟨1, 45 / 2, 30, 30, 40, 600, 800⟩)
        (PdfCoords.pdfY ⟨1, 45 / 2, 30, 30, 40, 600, 800⟩)
      = some ⟨30, 40, PdfCoords.page ⟨1, 45 / 2, 30, 30, 40, 600, 800⟩⟩ := by
  have hgood : ∀ a ∈ [defaultAttrs], Good a := by
    intro a ha; simp at ha; rw [ha]; exact good_defaultAttrs
  have h := roundtrip_law [defaultAttrs] hgood
  have hconv1 : pdfToTldrawCoords (getPageDimensionsRev [defaultAttrs]) 1 30 40
      = some ⟨40, 160 / 3, 1⟩ := by
    rw [demoRev1_eval]
    simp [pdfToTldrawCoords, demoRev1]
    norm_num
  have hband1 : inBand 40 demoPage1 = true := by
    simp only [inBand, demoPage1, Bool.and_eq_true, decide_eq_true_eq]
    norm_num
  have hfindd : findPageForY [demoPage1] 40 = some demoPage1 := by
    simp [findPageForY, List.find?_cons, hband1]
  have hconv2 : tldrawToPdfCoords (getPageDimensions [defaultAttrs]) 30 40
      = some ⟨1, 45 / 2, 30, 30, 40, 600, 800⟩ := by
    rw [demo1_eval, tldrawToPdfCoords, hfindd]
    simp [demoPage1]
    norm_num
  constructor
  · exact h.1 1 30 40 ⟨40, 160 / 3, 1⟩ demoPage1 hconv1
      (by rw [demo1_eval]; rfl)
      (by norm_num [demoPage1]) (by norm_num [demoPage1])
  · exact h.2 30 40 0 demoPage1 ⟨1, 45 / 2, 30, 30, 40, 600, 800⟩
      (by rw [demo1_eval]; rfl)
      (by norm_num [demoPage1]) (by norm_num [demoPage1]) hconv2
